import Mathlib

/-!
Shallow embedding of `elftools/common/construct_utils.py`: LEB128 decoding
adapters, the `RepeatUntilExcluding` combinator, `StreamOffset`,
`EmbeddableStruct`/`Embed`, and `CStringBytes`, together with theorems
checking the specification's claims about them.

Streams are modelled as the list of bytes still to be consumed (a byte is a
`Nat` in `[0, 256)`); the one construct that observes an absolute offset
(`StreamOffset`) is modelled over a stream carrying the full data plus a
cursor.  Fallible parsing returns `Except PErr`.
-/

/-- The error/exception taxonomy of the runtime, as observed by this layer:
stream exhaustion, the `StopFieldError` control signal, `NotImplementedError`
from `RepeatUntilExcluding._build`, `SizeofError` from its `_sizeof`, and
`noFuel`, which stands for non-termination of the unbounded Python loop
(the embedding runs loops on explicit fuel). -/
inductive PErr where
  | endOfStream
  | stopField
  | notImplemented
  | sizeofError
  | noFuel
deriving DecidableEq

/-- Decoded values flowing through the combinators: integers and the
`Container` (dict) results of struct parses. -/
inductive Value where
  | vInt (i : Int)
  | vMap (m : List (String × Value))

/-- `construct.Container`: an insertion-ordered mapping from field name to
value, modelled as an association list with unique keys. -/
abbrev Container := List (String × Value)

/-- Python-dict assignment `obj[k] = v`: replace the value in place if the
key is present, otherwise append the new binding at the end. -/
def cInsert : Container → String → Value → Container
  | [], k, v => [(k, v)]
  | p :: rest, k, v => if p.1 = k then (k, v) :: rest else p :: cInsert rest k v

/-- Key lookup in a `Container`. -/
def cLookup : Container → String → Option Value
  | [], _ => none
  | p :: rest, k => if p.1 = k then some p.2 else cLookup rest k

/-- Python-dict `obj.update(m)`: assign every binding of `m` into `obj`,
in `m`'s order. -/
def containerUpdate (obj : Container) (m : Container) : Container :=
  m.foldl (fun o kv => cInsert o kv.1 kv.2) obj

/-! ## LEB128 -/

/-- Bits of `a` with the bits of `b` cleared (`a AND NOT b`), in a form the
kernel evaluates (`&&&` and `^^^` on `Nat` are kernel-accelerated, unlike
`Nat.ldiff`). -/
def natLdiff (a b : Nat) : Nat := a ^^^ (a &&& b)

/-- Python's `|` on arbitrary-precision signed integers: bitwise or in
two's complement. -/
def intOr : Int → Int → Int
  | .ofNat m, .ofNat n => .ofNat (m ||| n)
  | .ofNat m, .negSucc n => .negSucc (natLdiff n m)
  | .negSucc m, .ofNat n => .negSucc (natLdiff m n)
  | .negSucc m, .negSucc n => .negSucc (m &&& n)

theorem natLdiff_eq_ldiff (a b : Nat) : natLdiff a b = Nat.ldiff a b := by
  apply Nat.eq_of_testBit_eq
  intro i
  simp only [natLdiff, Nat.testBit_xor, Nat.testBit_land, Nat.testBit_ldiff]
  cases a.testBit i <;> cases b.testBit i <;> rfl

/-- Sanity check: `intOr` agrees with Mathlib's `Int.lor`. -/
theorem intOr_eq_lor (a b : Int) : intOr a b = Int.lor a b := by
  cases a <;> cases b <;> simp [intOr, Int.lor, natLdiff_eq_ldiff]

/-- `_LEB128_reader()`: `RepeatUntil(lambda obj, list, ctx: ord(obj) < 0x80, Bytes(1))`.
Reads single bytes until one with the high bit clear; that terminal byte is
kept in the returned run.  Fails with `endOfStream` when the stream runs out
before a terminal byte. -/
def leb128Reader : List Nat → Except PErr (List Nat × List Nat)
  | [] => .error .endOfStream
  | b :: rest =>
    if b < 0x80 then .ok ([b], rest)
    else
      match leb128Reader rest with
      | .ok (run, r) => .ok (b :: run, r)
      | .error e => .error e

/-- `_ULEB128Adapter._decode`: `value = (value << 7) + (ord(b) & 0x7F)` over
the reversed byte run, starting from 0.  The Python accumulator is a
mathematical integer that never goes negative here, so it is a `Nat`. -/
def uleb128Decode (obj : List Nat) : Nat :=
  obj.reverse.foldl (fun value b => (value <<< 7) + (b &&& 0x7F)) 0

/-- `_SLEB128Adapter._decode`: the same accumulation as the unsigned adapter,
then if bit 0x40 of `obj[-1]` is set, `value |= -(1 << (7 * len(obj)))`.
Python raises `IndexError` on `obj[-1]` when the run is empty, hence `none`
there. -/
def sleb128Decode (obj : List Nat) : Option Int :=
  match obj.getLast? with
  | none => none
  | some last =>
    let value : Int := Int.ofNat (obj.reverse.foldl (fun value b => (value <<< 7) + (b &&& 0x7F)) 0)
    some (if last &&& 0x40 ≠ 0 then intOr value (-((2 : Int) ^ (7 * obj.length))) else value)

/-- `ULEB128.parse`: read a byte run from the stream and decode it with the
unsigned adapter. -/
def uleb128Parse (s : List Nat) : Except PErr (Nat × List Nat) :=
  match leb128Reader s with
  | .ok (run, rest) => .ok (uleb128Decode run, rest)
  | .error e => .error e

/-- Modelled from the spec: the "reference LEB128 encoder" `encode_bytes` the
spec's round-trip property quantifies over is not part of this repository.
Standard ULEB128: emit the low 7 bits of `n`, set the continuation bit when
more bits remain, shift `n` right by 7 and repeat.  The `fuel` argument makes
the recursion structural; `fuel = n` always suffices since `n >>> 7 < n` for
`n ≥ 0x80`. -/
def encodeBytesAux : Nat → Nat → List Nat
  | 0, n => [n]
  | fuel + 1, n =>
    if n < 0x80 then [n]
    else ((n &&& 0x7F) ||| 0x80) :: encodeBytesAux fuel (n >>> 7)

/-- Modelled from the spec: reference unsigned LEB128 encoder (see
`encodeBytesAux`). -/
def encodeBytes (n : Nat) : List Nat :=
  encodeBytesAux n n

/-! ## RepeatUntilExcluding -/

/-- A sub-construct's parse action on a stream of remaining bytes. -/
abbrev SubParser := List Nat → Except PErr (Value × List Nat)

/-- The `predicate` argument of `RepeatUntilExcluding`: either a Python
callable, or a non-callable constant (modelled by its truthiness). -/
inductive RPredicate where
  | callable (f : Value → List Value → Nat → Bool)
  | const (truthy : Bool)

/-- The predicate actually called by `RepeatUntilExcluding._parse`.  For a
non-callable `predicate` the source runs
`predicate = lambda _1,_2,_3: predicate`: the assignment rebinds the local
variable the lambda closes over, so the lambda returns itself — a function
object, which is truthy regardless of the original constant. -/
def effectivePredicate : RPredicate → (Value → List Value → Nat → Bool)
  | .callable f => f
  | .const _ => fun _ _ _ => true

/-- The `for i in itertools.count()` loop of `RepeatUntilExcluding._parse`:
parse an element, append it, and if the predicate (given the element, the
accumulated list, and the context carrying `_index = i`) holds, drop the
last element (`del obj[-1]`) and return.  `fuel` bounds the unbounded Python
loop. -/
def ruLoop (p : Value → List Value → Nat → Bool) (sub : SubParser) :
    Nat → Nat → List Value → List Nat → Except PErr (List Value × List Nat)
  | 0, _, _, _ => .error .noFuel
  | fuel + 1, i, obj, s =>
    match sub s with
    | .error e => .error e
    | .ok (e, s') =>
      let obj' := obj ++ [e]
      if p e obj' i then .ok (obj, s')
      else ruLoop p sub fuel (i + 1) obj' s'

/-- `RepeatUntilExcluding._parse`. -/
def repeatUntilExcludingParse (fuel : Nat) (pred : RPredicate) (sub : SubParser)
    (s : List Nat) : Except PErr (List Value × List Nat) :=
  ruLoop (effectivePredicate pred) sub fuel 0 [] s

/-- `RepeatUntilExcluding._build`: `raise NotImplementedError('no building')`. -/
def repeatUntilExcludingBuild (_obj : Value) (_stream : List Nat) : Except PErr (List Nat) :=
  .error .notImplemented

/-- `RepeatUntilExcluding._sizeof`: `raise SizeofError(...)`. -/
def repeatUntilExcludingSizeof : Except PErr Nat :=
  .error .sizeofError

/-- `Bytes(1)` style inner parser: read one byte from the stream. -/
def byteParser : SubParser
  | [] => .error .endOfStream
  | b :: rest => .ok (.vInt b, rest)

/-- The predicate `byte == 0` of the spec's ExclusiveRepeat example. -/
def isZeroPred : Value → List Value → Nat → Bool
  | .vInt i, _, _ => i == 0
  | _, _, _ => false

/-! ## EmbeddableStruct / Embed -/

/-- A declared field of an `EmbeddableStruct`: its name (may be absent), a
flag recording whether the sub-construct is an `Embed` wrapper
(`isinstance(sc, Embed)`), and its parse action.  Since `Embed` delegates
parsing verbatim to its wrapped construct, the wrapper is fully described by
this flag plus the wrapped parse action.  The per-struct child parse context
(`_`, `_root`, mode flags, sibling values) is not modelled: no verified
property observes it. -/
structure SField where
  name : Option String
  isEmbed : Bool
  parse : SubParser

/-- The field loop of `EmbeddableStruct._parse`: for each declared field run
its parser; a `StopFieldError` breaks out of the loop, returning the mapping
accumulated so far; other errors propagate.  A named field's result is
assigned under its name; an unnamed `Embed` field's result, when it is a
non-empty mapping (Python checks `subobj and isinstance(sc, Embed)`), is
merged in with `obj.update(subobj)`. -/
def esLoop (obj : Container) (s : List Nat) :
    List SField → Except PErr (Container × List Nat)
  | [] => .ok (obj, s)
  | f :: fs =>
    match f.parse s with
    | .error .stopField => .ok (obj, s)
    | .error e => .error e
    | .ok (v, s') =>
      let obj' :=
        match f.name with
        | some n => cInsert obj n v
        | none =>
          if f.isEmbed then
            match v with
            | .vMap m => if m.isEmpty then obj else containerUpdate obj m
            | _ => obj
          else obj
      esLoop obj' s' fs

/-- `EmbeddableStruct._parse`, returning the result container and the
remaining stream. -/
def embeddableStructParse (fields : List SField) (s : List Nat) :
    Except PErr (Container × List Nat) :=
  esLoop [] s fields

/-- An ordinary one-byte field named `n`. -/
def byteField (n : String) : SField :=
  ⟨some n, false, byteParser⟩

/-- `Embed(EmbeddableStruct(...))`: an unnamed embedded sub-struct whose
parse is delegated to the wrapped struct (which yields its container as a
value). -/
def embedField (subFields : List SField) : SField :=
  ⟨none, true, fun s =>
    match embeddableStructParse subFields s with
    | .ok (c, r) => .ok (.vMap c, r)
    | .error e => .error e⟩

/-! ## StreamOffset -/

/-- A stream with an absolute cursor, for the one construct that calls
`stream.tell()`. -/
structure PStream where
  data : List Nat
  pos : Nat
deriving DecidableEq

/-- `stream.tell()`. -/
def PStream.tell (s : PStream) : Nat := s.pos

/-- A one-byte read on an absolute-cursor stream. -/
def read1P (s : PStream) : Except PErr (Nat × PStream) :=
  match s.data.drop s.pos with
  | [] => .error .endOfStream
  | b :: _ => .ok (b, ⟨s.data, s.pos + 1⟩)

/-- `StreamOffset._parse`: `return stream.tell()`; the stream is untouched. -/
def streamOffsetParse (s : PStream) : Nat × PStream :=
  (s.tell, s)

/-- `StreamOffset._build`: `context[self.name] = stream.tell()`; nothing is
written to the output stream and no value is returned.  The output stream is
the list of bytes written so far, so `tell` is its length. -/
def streamOffsetBuild (name : String) (context : Container) (stream : List Nat) :
    Container × List Nat :=
  (cInsert context name (.vInt stream.length), stream)

/-- `StreamOffset._sizeof`: `return 0`. -/
def streamOffsetSizeof : Nat := 0

/-! ## CStringBytes -/

/-- Modelled from the spec: `CStringBytes` is `NullTerminated(GreedyBytes)`,
where `NullTerminated` and `GreedyBytes` come from the external `construct`
library and are not part of this repository.  Per the spec's contract: read
bytes until a zero byte; return all bytes read excluding the terminating
zero, with the cursor left right after the zero; fail with `EndOfStream`
when no zero byte occurs before the stream ends. -/
def cStringBytesParse : List Nat → Except PErr (List Nat × List Nat)
  | [] => .error .endOfStream
  | b :: rest =>
    if b = 0 then .ok ([], rest)
    else
      match cStringBytesParse rest with
      | .ok (v, r) => .ok (b :: v, r)
      | .error e => .error e

/-- A field whose parser raises the stop signal (for stop-signal scenarios). -/
def stopSField : SField :=
  ⟨some "c", false, fun _ => .error .stopField⟩

/-! ## Helper lemmas -/

/-- Dict assignment then lookup of the same key yields the assigned value
(last write wins). -/
theorem cLookup_cInsert (c : Container) (k : String) (v : Value) :
    cLookup (cInsert c k v) k = some v := by
  induction c with
  | nil => simp [cInsert, cLookup]
  | cons p rest ih =>
    by_cases h : p.1 = k
    · simp [cInsert, cLookup, h]
    · simp [cInsert, cLookup, h, ih]

/-- Behaviour of the `RepeatUntilExcluding` loop with the one-byte inner
parser and the `byte == 0` predicate: up to the first zero of the stream,
every byte is accumulated; the zero satisfies the predicate, is dropped from
the result, and the loop stops right after consuming it. -/
theorem ruLoop_isZero (l : List Nat) (h0 : 0 ∈ l) :
    ∀ fuel, l.length ≤ fuel → ∀ i obj,
      ruLoop isZeroPred byteParser fuel i obj l
        = .ok (obj ++ (l.takeWhile (fun b => b != 0)).map (fun b : Nat => Value.vInt (b : Int)),
               (l.dropWhile (fun b => b != 0)).tail) := by
  induction l with
  | nil => simp at h0
  | cons b rest ih =>
    intro fuel hf i obj
    match fuel, hf with
    | fuel + 1, hf =>
      by_cases hb : b = 0
      · subst hb
        simp [ruLoop, byteParser, isZeroPred, List.takeWhile, List.dropWhile]
      · have h0' : 0 ∈ rest := by
          rcases List.mem_cons.mp h0 with h | h
          · exact absurd h.symm hb
          · exact h
        have hbi : isZeroPred (.vInt b) (obj ++ [.vInt b]) i = false := by
          simp [isZeroPred, hb]
        simp only [ruLoop, byteParser, hbi, Bool.false_eq_true, if_false]
        rw [ih h0' fuel (by simpa using hf)]
        simp [List.takeWhile_cons, List.dropWhile_cons, hb, List.append_assoc]

/-! ## Claim theorems -/

/-- C1: the signed LEB128 decoder accumulates the low 7 bits of each byte
from last to first and sign-extends via `value |= -(1 << (7 * len))` when
bit 0x40 of the terminal byte is set: `[0x7F]` decodes to `-1`, `[0x3F]` to
`63`, `[0xFF, 0x00]` to `127`, and every single-byte run (terminal byte, so
`b < 0x80`) with the sign bit set decodes to `b - 128`. -/
theorem sleb128_decode_spec :
    sleb128Decode [0x7F] = some (-1) ∧
    sleb128Decode [0x3F] = some 63 ∧
    sleb128Decode [0xFF, 0x00] = some 127 ∧
    ∀ b : Nat, b < 0x80 → b &&& 0x40 ≠ 0 → sleb128Decode [b] = some ((b : Int) - 128) := by
  refine ⟨by decide, by decide, by decide, ?_⟩
  intro b hb h40
  interval_cases b <;> revert h40 <;> decide

/-- Witness for C1 at the concrete single-byte run `[0x41]`. -/
theorem sleb128_decode_spec_witness :
    (0x41 : Nat) < 0x80 ∧ (0x41 : Nat) &&& 0x40 ≠ 0 ∧
      sleb128Decode [0x41] = some ((0x41 : Int) - 128) :=
  ⟨by decide, by decide, sleb128_decode_spec.2.2.2 0x41 (by decide) (by decide)⟩

/-- C2: for `n` in `{0, 1, 127, 128, 300, 2^32-1, 2^63-1}`, reading the byte
run produced by the reference LEB128 encoder and decoding it with the
unsigned adapter yields `n` back (and consumes exactly the run). -/
theorem uleb128_roundtrip :
    uleb128Parse (encodeBytes 0) = .ok (0, []) ∧
    uleb128Parse (encodeBytes 1) = .ok (1, []) ∧
    uleb128Parse (encodeBytes 127) = .ok (127, []) ∧
    uleb128Parse (encodeBytes 128) = .ok (128, []) ∧
    uleb128Parse (encodeBytes 300) = .ok (300, []) ∧
    uleb128Parse (encodeBytes (2 ^ 32 - 1)) = .ok (2 ^ 32 - 1, []) ∧
    uleb128Parse (encodeBytes (2 ^ 63 - 1)) = .ok (2 ^ 63 - 1, []) :=
  ⟨rfl, rfl, rfl, rfl, rfl, rfl, rfl⟩

/-- C3: `RepeatUntilExcluding` with a one-byte inner parser and predicate
`byte == 0` parses every byte before the first zero, drops the terminating
zero from the result, and leaves the stream right after the consumed zero. -/
theorem repeatUntilExcluding_parse_spec (l : List Nat) (h0 : 0 ∈ l)
    (fuel : Nat) (hf : l.length ≤ fuel) :
    repeatUntilExcludingParse fuel (.callable isZeroPred) byteParser l
      = .ok ((l.takeWhile (fun b => b != 0)).map (fun b : Nat => Value.vInt (b : Int)),
             (l.dropWhile (fun b => b != 0)).tail) := by
  have h := ruLoop_isZero l h0 fuel hf 0 []
  simpa only [repeatUntilExcludingParse, effectivePredicate, List.nil_append] using h

/-- Witness for C3 at the spec's example `[1,2,3,0,9,9]`. -/
theorem repeatUntilExcluding_parse_spec_witness :
    0 ∈ [1, 2, 3, 0, 9, 9] ∧ List.length [1, 2, 3, 0, 9, 9] ≤ 6 ∧
      repeatUntilExcludingParse 6 (.callable isZeroPred) byteParser [1, 2, 3, 0, 9, 9]
        = .ok ([.vInt 1, .vInt 2, .vInt 3], [9, 9]) := by
  refine ⟨by decide, by decide, ?_⟩
  have h := repeatUntilExcluding_parse_spec [1, 2, 3, 0, 9, 9] (by decide) 6 (by decide)
  simpa using h

/-- C4: if a field of a four-field `EmbeddableStruct` raises the stop signal
after field 2, the struct returns only fields 1-2, with the stream exactly
where field 2 left it; fields 3 and 4 consume no input (field 4's parser is
never invoked — it is arbitrary here). -/
theorem embeddableStruct_stop_spec (f1 f2 f3 f4 : SField) (n1 n2 : String)
    (s s1 s2 : List Nat) (v1 v2 : Value)
    (hn1 : f1.name = some n1) (hn2 : f2.name = some n2) (hne : n1 ≠ n2)
    (h1 : f1.parse s = .ok (v1, s1)) (h2 : f2.parse s1 = .ok (v2, s2))
    (h3 : f3.parse s2 = .error .stopField) :
    embeddableStructParse [f1, f2, f3, f4] s
      = .ok ([(n1, v1), (n2, v2)], s2) := by
  simp [embeddableStructParse, esLoop, h1, h2, h3, hn1, hn2, cInsert, hne]

/-- Witness for C4: concrete four-field struct stopping at field 3. -/
theorem embeddableStruct_stop_spec_witness :
    embeddableStructParse [byteField "a", byteField "b", stopSField, byteField "d"]
        [10, 20, 30, 40]
      = .ok ([("a", .vInt 10), ("b", .vInt 20)], [30, 40]) :=
  embeddableStruct_stop_spec (byteField "a") (byteField "b") stopSField (byteField "d")
    "a" "b" [10, 20, 30, 40] [20, 30, 40] [30, 40] (.vInt 10) (.vInt 20)
    rfl rfl (by decide) rfl rfl rfl

/-- C5: a struct `[a, Embed(Struct(b, c)), d]` over four bytes yields one
flat mapping with entries `a, b, c, d` in order and no nested container;
merging assigns by key, so the last write in declaration order wins (both as
the general assignment law and on an actual collision through `Embed`). -/
theorem embeddableStruct_embed_flatten (w x y z : Nat) :
    embeddableStructParse
        [byteField "a", embedField [byteField "b", byteField "c"], byteField "d"]
        [w, x, y, z]
      = .ok ([("a", .vInt w), ("b", .vInt x), ("c", .vInt y), ("d", .vInt z)], []) ∧
    (∀ (c : Container) (k : String) (v : Value), cLookup (cInsert c k v) k = some v) ∧
    embeddableStructParse [byteField "a", embedField [byteField "a"]] [1, 2]
      = .ok ([("a", .vInt 2)], []) :=
  ⟨rfl, cLookup_cInsert, rfl⟩

/-- C6: the raw null-terminated reader returns the bytes before the zero,
leaves the stream right after the zero (`b"hello\x00world"` parses to
`b"hello"` with `world` remaining), and fails with `EndOfStream` when the
stream holds no zero byte. -/
theorem cStringBytes_spec :
    cStringBytesParse [104, 101, 108, 108, 111, 0, 119, 111, 114, 108, 100]
      = .ok ([104, 101, 108, 108, 111], [119, 111, 114, 108, 100]) ∧
    ∀ s : List Nat, 0 ∉ s → cStringBytesParse s = .error .endOfStream := by
  refine ⟨rfl, ?_⟩
  intro s h
  induction s with
  | nil => rfl
  | cons b rest ih =>
    have hb : b ≠ 0 := fun hb => h (by simp [hb])
    have h' : 0 ∉ rest := fun hr => h (List.mem_cons_of_mem _ hr)
    simp [cStringBytesParse, hb, ih h']

/-- Witness for C6's no-zero clause at `[5, 6]`. -/
theorem cStringBytes_spec_witness :
    0 ∉ [5, 6] ∧ cStringBytesParse [5, 6] = .error .endOfStream :=
  ⟨by decide, cStringBytes_spec.2 [5, 6] (by decide)⟩

/-- C7: building a `StreamOffset` emits nothing (the output stream is
unchanged) and records the current output position into the context under
the declared field name instead of returning a value. -/
theorem streamOffset_build_spec (name : String) (ctx : Container) (stream : List Nat) :
    (streamOffsetBuild name ctx stream).2 = stream ∧
    cLookup (streamOffsetBuild name ctx stream).1 name = some (.vInt stream.length) :=
  ⟨rfl, cLookup_cInsert ctx name (.vInt stream.length)⟩

/-- C8: parsing a `StreamOffset` returns the current offset and consumes
zero bytes (the stream is unchanged, so a subsequent read starts at the same
offset); its static size is 0; parsing at offset 10 returns 10. -/
theorem streamOffset_parse_spec :
    (∀ s : PStream,
      (streamOffsetParse s).1 = s.tell ∧ (streamOffsetParse s).2 = s ∧
        read1P (streamOffsetParse s).2 = read1P s) ∧
    streamOffsetSizeof = 0 ∧
    (∀ d : List Nat, (streamOffsetParse ⟨d, 10⟩).1 = 10) :=
  ⟨fun _ => ⟨rfl, rfl, rfl⟩, rfl, fun _ => rfl⟩

/-- C9: building with `RepeatUntilExcluding` always fails with
`NotImplemented`, and computing its static size always fails with the
size-indeterminate error; neither operation ever succeeds. -/
theorem repeatUntilExcluding_build_sizeof_spec :
    (∀ (obj : Value) (stream : List Nat),
      repeatUntilExcludingBuild obj stream = .error .notImplemented) ∧
    repeatUntilExcludingSizeof = .error .sizeofError :=
  ⟨fun _ _ => rfl, rfl⟩

/-- C10: with a non-callable predicate (truthy or falsy constant), the
substituted fallback predicate is truthy on the first iteration (the lambda
returns itself), so parsing consumes exactly one element — one invocation of
the inner parser — and returns the empty sequence. -/
theorem repeatUntilExcluding_nonCallable_spec (t : Bool) (sub : SubParser)
    (s s' : List Nat) (v : Value) (fuel : Nat)
    (h : sub s = .ok (v, s')) :
    repeatUntilExcludingParse (fuel + 1) (.const t) sub s = .ok ([], s') := by
  simp [repeatUntilExcludingParse, effectivePredicate, ruLoop, h]

/-- Witness for C10 with a falsy constant and the one-byte parser. -/
theorem repeatUntilExcluding_nonCallable_spec_witness :
    byteParser [7, 8] = .ok (.vInt 7, [8]) ∧
      repeatUntilExcludingParse 1 (.const false) byteParser [7, 8] = .ok ([], [8]) :=
  ⟨rfl, repeatUntilExcluding_nonCallable_spec false byteParser [7, 8] [8] (.vInt 7) 0 rfl⟩
